import Mathlib

/-!
Verification of a De Bruijn-level untyped lambda-calculus rewriting engine.

The embedded program is a term-rewriting engine: lambda terms are a tagged
variant tree (var / func / app), variable indices are De Bruijn levels,
and the engine provides index lifting, capture-safe substitution,
single-step leftmost-outermost beta-reduction, a bounded normalization
driver, and a binding-tower constructor.  All machine integers in the
source are unsigned (size_t); they are modelled as Nat.
-/

namespace Lambda

/-- Lambda terms: a variable carrying a De Bruijn level, a single-argument
abstraction, or an application (the var / func / app variants). -/
inductive Expr : Type where
| var : Nat → Expr
| func : Expr → Expr
| app : Expr → Expr → Expr
deriving DecidableEq

/-- Node count of a term: 1 for a var, 1 + size of the body for a func,
1 + sizes of both children for an app (the cached m_size metric). -/
def Expr.size : Expr → Nat
| .var _ => 1
| .func b => 1 + b.size
| .app l r => 1 + l.size + r.size

/-- Index lifting: a var with index below the cutoff is unchanged, any other
var has the lift amount added to its index; a func lifts its body with the
SAME cutoff (levels, not indices); an app lifts both children. -/
def Expr.lift : Expr → Nat → Nat → Expr
| .var i, amount, cutoff =>
    if i < cutoff then .var i else .var (i + amount)
| .func b, amount, cutoff => .func (b.lift amount cutoff)
| .app l r, amount, cutoff =>
    .app (l.lift amount cutoff) (r.lift amount cutoff)

/-- Deep copy, defined as the identity lift with amount 0 and cutoff 0. -/
def Expr.clone (t : Expr) : Expr := t.lift 0 0

/-- Capture-safe substitution.  On a var: an index above the substituted
variable index is decremented, an index below it is cloned unchanged, and
the substituted index itself becomes the argument lifted by the number of
binders crossed; a func recurses with the lift amount incremented; an app
recurses into both children unchanged. -/
def Expr.substitute : Expr → Nat → Nat → Expr → Expr
| .var i, la, vi, arg =>
    if vi < i then .var (i - 1)
    else if i < vi then (Expr.var i).clone
    else arg.lift la vi
| .func b, la, vi, arg => .func (b.substitute (la + 1) vi arg)
| .app l r, la, vi, arg =>
    .app (l.substitute la vi arg) (r.substitute la vi arg)

/-- The dynamic type test used by the reduction step: is this term a func? -/
def Expr.isFunc : Expr → Bool
| .func _ => true
| _ => false

/-- One step of leftmost-outermost beta-reduction.  A var never reduces; a
func reduces when its body reduces at depth + 1; an app whose left child is
a func beta-contracts immediately, and otherwise tries the left child, then
the right child, cloning the untouched sibling. -/
def Expr.reduce_one_step : Expr → Nat → Option Expr
| .var _, _ => none
| .func b, depth =>
    match b.reduce_one_step (depth + 1) with
    | none => none
    | some b2 => some (.func b2)
| .app l r, depth =>
    match l with
    | .func body => some (body.substitute 0 depth r)
    | _ =>
      match l.reduce_one_step depth with
      | some l2 => some (.app l2 r.clone)
      | none =>
        match r.reduce_one_step depth with
        | some r2 => some (.app l.clone r2)
        | none => none

/-- The record returned by normalize: the two excess flags, the committed
step count, the peak size over committed reductions, and the final term. -/
structure NormalizeResult : Type where
  step_excess : Bool
  size_excess : Bool
  step_count : Nat
  size_peak : Nat
  expr : Expr
deriving DecidableEq

/-- The normalization loop.  Each iteration asks the current term for a
candidate reduction; if none exists the state is returned as is; otherwise
the step limit is checked first (step_count equal to the limit stops with
the step-excess flag), then the size limit (a candidate larger than the
limit stops with the size-excess flag), and only then is the candidate
committed: the step count is incremented, the size peak updated, and the
term replaced.  The fuel argument only makes the recursion structural: the
loop commits at most step_limit steps, so from the initial state
(step count 0, fuel step_limit) the zero-fuel branch is unreachable, which
lemma normalize_go_fuel_succ makes precise. -/
def normalize_go (step_limit size_limit : Nat) :
    Nat → NormalizeResult → NormalizeResult
| fuel, st =>
  match st.expr.reduce_one_step 0 with
  | none => st
  | some reduced =>
    if st.step_count = step_limit then { st with step_excess := true }
    else if size_limit < reduced.size then { st with size_excess := true }
    else
      match fuel with
      | 0 => st
      | f + 1 =>
        normalize_go step_limit size_limit f
          { st with
              step_count := st.step_count + 1,
              size_peak := max st.size_peak reduced.size,
              expr := reduced }

/-- Bounded normalization: clone the term, start with both flags cleared,
step count 0 and size peak at the minimum value of size_t, namely 0, then
run the loop. -/
def Expr.normalize (t : Expr) (step_limit size_limit : Nat) :
    NormalizeResult :=
  normalize_go step_limit size_limit step_limit
    { step_excess := false, size_excess := false, step_count := 0,
      size_peak := 0, expr := t.clone }

/-- The binding-tower constructor: an empty helper list yields a clone of
the main term; a non-empty list wraps the recursion on the tail in a func
and applies it to a clone of the head helper. -/
def construct_program : List Expr → Expr → Expr
| [], main_fn => main_fn.clone
| h :: rest, main_fn =>
    .app (.func (construct_program rest main_fn)) h.clone

/-! ### Basic lemmas about lift and clone -/

lemma lift_zero (t : Expr) : ∀ c : Nat, t.lift 0 c = t := by
  induction t with
  | var i => intro c; simp [Expr.lift]
  | func b ih => intro c; simp [Expr.lift, ih]
  | app l r ihl ihr => intro c; simp [Expr.lift, ihl, ihr]

lemma clone_eq (t : Expr) : t.clone = t := lift_zero t 0

/-! ### Unfolding lemmas for the normalization loop -/

lemma normalize_go_none (sl zl fuel : Nat) (st : NormalizeResult)
    (h : st.expr.reduce_one_step 0 = none) :
    normalize_go sl zl fuel st = st := by
  rw [normalize_go, h]

lemma normalize_go_step_excess (sl zl fuel : Nat) (st : NormalizeResult)
    (reduced : Expr) (h : st.expr.reduce_one_step 0 = some reduced)
    (hsc : st.step_count = sl) :
    normalize_go sl zl fuel st = { st with step_excess := true } := by
  rw [normalize_go, h]
  simp [hsc]

lemma normalize_go_size_excess (sl zl fuel : Nat) (st : NormalizeResult)
    (reduced : Expr) (h : st.expr.reduce_one_step 0 = some reduced)
    (hsc : st.step_count ≠ sl) (hsz : zl < reduced.size) :
    normalize_go sl zl fuel st = { st with size_excess := true } := by
  rw [normalize_go, h]
  simp [hsc, hsz]

lemma normalize_go_commit (sl zl fuel : Nat) (st : NormalizeResult)
    (reduced : Expr) (h : st.expr.reduce_one_step 0 = some reduced)
    (hsc : st.step_count ≠ sl) (hsz : reduced.size ≤ zl) :
    normalize_go sl zl (fuel + 1) st =
      normalize_go sl zl fuel
        { st with
            step_count := st.step_count + 1,
            size_peak := max st.size_peak reduced.size,
            expr := reduced } := by
  rw [normalize_go, h]
  simp [hsc, Nat.not_lt.mpr hsz]

/-- Adding fuel beyond the remaining step allowance never changes the
result: the zero-fuel stub in normalize_go is unreachable from any state
whose step count is at most the step limit and whose fuel covers the
remaining steps, which is how normalize always invokes the loop. -/
lemma normalize_go_fuel_succ (sl zl : Nat) :
    ∀ (fuel : Nat) (st : NormalizeResult), st.step_count ≤ sl →
      sl - st.step_count ≤ fuel →
      normalize_go sl zl (fuel + 1) st = normalize_go sl zl fuel st := by
  intro fuel
  induction fuel with
  | zero =>
    intro st hle hfuel
    have hsc : st.step_count = sl := by omega
    rcases hred : st.expr.reduce_one_step 0 with _ | reduced
    · rw [normalize_go_none sl zl _ st hred, normalize_go_none sl zl _ st hred]
    · rw [normalize_go_step_excess sl zl _ st reduced hred hsc,
        normalize_go_step_excess sl zl _ st reduced hred hsc]
  | succ f ih =>
    intro st hle hfuel
    rcases hred : st.expr.reduce_one_step 0 with _ | reduced
    · rw [normalize_go_none sl zl _ st hred, normalize_go_none sl zl _ st hred]
    · by_cases hsc : st.step_count = sl
      · rw [normalize_go_step_excess sl zl _ st reduced hred hsc,
          normalize_go_step_excess sl zl _ st reduced hred hsc]
      · by_cases hsz : zl < reduced.size
        · rw [normalize_go_size_excess sl zl _ st reduced hred hsc hsz,
            normalize_go_size_excess sl zl _ st reduced hred hsc hsz]
        · rw [normalize_go_commit sl zl (f + 1) st reduced hred hsc
            (Nat.not_lt.mp hsz),
            normalize_go_commit sl zl f st reduced hred hsc
            (Nat.not_lt.mp hsz)]
          exact ih _ (by simp; omega) (by simp; omega)

/-- The state normalize starts its loop with: flags cleared, zero steps,
size peak at the minimum of size_t (0), and a clone of the input term
(the clone being the identity, the field holds the term itself). -/
def init_state (t : Expr) : NormalizeResult :=
  { step_excess := false, size_excess := false, step_count := 0,
    size_peak := 0, expr := t }

lemma normalize_eq (t : Expr) (sl zl : Nat) :
    t.normalize sl zl = normalize_go sl zl sl (init_state t) := by
  simp only [Expr.normalize, clone_eq, init_state]

lemma normalize_go_step_count_le (sl zl : Nat) :
    ∀ (fuel : Nat) (st : NormalizeResult),
      st.step_count ≤ (normalize_go sl zl fuel st).step_count := by
  intro fuel
  induction fuel with
  | zero =>
    intro st
    rcases hred : st.expr.reduce_one_step 0 with _ | reduced
    · rw [normalize_go_none sl zl _ st hred]
    · by_cases hsc : st.step_count = sl
      · rw [normalize_go_step_excess sl zl _ st reduced hred hsc]
      · by_cases hsz : zl < reduced.size
        · rw [normalize_go_size_excess sl zl _ st reduced hred hsc hsz]
        · rw [normalize_go, hred]
          simp [hsc, hsz]
  | succ f ih =>
    intro st
    rcases hred : st.expr.reduce_one_step 0 with _ | reduced
    · rw [normalize_go_none sl zl _ st hred]
    · by_cases hsc : st.step_count = sl
      · rw [normalize_go_step_excess sl zl _ st reduced hred hsc]
      · by_cases hsz : zl < reduced.size
        · rw [normalize_go_size_excess sl zl _ st reduced hred hsc hsz]
        · rw [normalize_go_commit sl zl f st reduced hred hsc
            (Nat.not_lt.mp hsz)]
          have hle := ih { st with
            step_count := st.step_count + 1,
            size_peak := max st.size_peak reduced.size,
            expr := reduced }
          simp only at hle
          omega

lemma normalize_go_flags (sl zl : Nat) :
    ∀ (fuel : Nat) (st : NormalizeResult),
      st.step_excess = false → st.size_excess = false →
      ((normalize_go sl zl fuel st).step_excess &&
        (normalize_go sl zl fuel st).size_excess) = false := by
  intro fuel
  induction fuel with
  | zero =>
    intro st h1 h2
    rcases hred : st.expr.reduce_one_step 0 with _ | reduced
    · rw [normalize_go_none sl zl _ st hred]
      simp [h1]
    · by_cases hsc : st.step_count = sl
      · rw [normalize_go_step_excess sl zl _ st reduced hred hsc]
        simp [h2]
      · by_cases hsz : zl < reduced.size
        · rw [normalize_go_size_excess sl zl _ st reduced hred hsc hsz]
          simp [h1]
        · rw [normalize_go, hred]
          simp [hsc, hsz, h1]
  | succ f ih =>
    intro st h1 h2
    rcases hred : st.expr.reduce_one_step 0 with _ | reduced
    · rw [normalize_go_none sl zl _ st hred]
      simp [h1]
    · by_cases hsc : st.step_count = sl
      · rw [normalize_go_step_excess sl zl _ st reduced hred hsc]
        simp [h2]
      · by_cases hsz : zl < reduced.size
        · rw [normalize_go_size_excess sl zl _ st reduced hred hsc hsz]
          simp [h1]
        · rw [normalize_go_commit sl zl f st reduced hred hsc
            (Nat.not_lt.mp hsz)]
          exact ih _ h1 h2

/-- The app-case of the reduction step when the left child is not a func:
try the left child first, then the right child, cloning the sibling. -/
lemma reduce_one_step_app_not_func (l r : Expr) (depth : Nat)
    (hf : l.isFunc = false) :
    (Expr.app l r).reduce_one_step depth =
      match l.reduce_one_step depth with
      | some l2 => some (Expr.app l2 r.clone)
      | none =>
        match r.reduce_one_step depth with
        | some r2 => some (Expr.app l.clone r2)
        | none => none := by
  cases l with
  | var i => rfl
  | func b => simp [Expr.isFunc] at hf
  | app a b => rfl

/-! ### Claim theorems -/

/-- C1: substitute follows exactly the per-variant rules: a var whose index
exceeds varIndex is decremented by one, a var below varIndex is returned
unchanged, the var at varIndex becomes the argument lifted by liftAmount
with cutoff varIndex, a func recurses into its body with liftAmount
incremented and varIndex unchanged, and an app substitutes into both
children with liftAmount and varIndex unchanged. -/
theorem substitute_spec :
    (∀ (i la vi : Nat) (arg : Expr), vi < i →
       Expr.substitute (.var i) la vi arg = .var (i - 1)) ∧
    (∀ (i la vi : Nat) (arg : Expr), i < vi →
       Expr.substitute (.var i) la vi arg = .var i) ∧
    (∀ (la vi : Nat) (arg : Expr),
       Expr.substitute (.var vi) la vi arg = arg.lift la vi) ∧
    (∀ (b : Expr) (la vi : Nat) (arg : Expr),
       Expr.substitute (.func b) la vi arg =
         .func (b.substitute (la + 1) vi arg)) ∧
    (∀ (l r : Expr) (la vi : Nat) (arg : Expr),
       Expr.substitute (.app l r) la vi arg =
         .app (l.substitute la vi arg) (r.substitute la vi arg)) := by
  refine ⟨?_, ?_, ?_, ?_, ?_⟩
  · intro i la vi arg h
    simp [Expr.substitute, h]
  · intro i la vi arg h
    simp [Expr.substitute, h, Nat.lt_asymm h, clone_eq]
  · intro la vi arg
    simp [Expr.substitute]
  · intro b la vi arg
    rfl
  · intro l r la vi arg
    rfl

theorem substitute_spec_witness :
    (1 : Nat) < 3 ∧ Expr.substitute (.var 3) 0 1 (.var 0) = .var 2 :=
  ⟨by decide, substitute_spec.1 3 0 1 (.var 0) (by decide)⟩

/-- C4: lift leaves a var whose index is below the cutoff unchanged, adds
the amount to the index of any var at or above the cutoff, descends into a
func body with the SAME cutoff (the cutoff is not incremented at a binder),
and lifts both children of an app with the same amount and cutoff. -/
theorem lift_spec :
    (∀ (i amount cutoff : Nat), cutoff ≤ i →
       Expr.lift (.var i) amount cutoff = .var (i + amount)) ∧
    (∀ (i amount cutoff : Nat), i < cutoff →
       Expr.lift (.var i) amount cutoff = .var i) ∧
    (∀ (b : Expr) (amount cutoff : Nat),
       Expr.lift (.func b) amount cutoff = .func (b.lift amount cutoff)) ∧
    (∀ (l r : Expr) (amount cutoff : Nat),
       Expr.lift (.app l r) amount cutoff =
         .app (l.lift amount cutoff) (r.lift amount cutoff)) := by
  refine ⟨?_, ?_, ?_, ?_⟩
  · intro i amount cutoff h
    simp [Expr.lift, Nat.not_lt.mpr h]
  · intro i amount cutoff h
    simp [Expr.lift, h]
  · intro b amount cutoff
    rfl
  · intro l r amount cutoff
    rfl

theorem lift_spec_witness :
    (3 : Nat) ≤ 3 ∧ Expr.lift (.var 3) 5 3 = .var 8 :=
  ⟨by decide, lift_spec.1 3 5 3 (by decide)⟩

/-- C9: lifting by amount 0 is the identity at every cutoff, and therefore
clone, defined as lift with amount 0 and cutoff 0, returns a term
structurally equal to its input. -/
theorem lift_zero_identity (t : Expr) (c : Nat) :
    t.lift 0 c = t ∧ t.clone = t :=
  ⟨lift_zero t c, clone_eq t⟩

/-- C7: construct_program on a non-empty helper list builds the app of a
func wrapping the recursion on the remaining helpers to the first helper,
and on an empty list returns a clone of the main term, which is
structurally equal to the main term; it is a total structural transform
performing no reduction. -/
theorem construct_program_spec :
    (∀ (h : Expr) (rest : List Expr) (main_fn : Expr),
       construct_program (h :: rest) main_fn =
         .app (.func (construct_program rest main_fn)) h) ∧
    (∀ main_fn : Expr, construct_program [] main_fn = main_fn) := by
  constructor
  · intro h rest main_fn
    simp [construct_program, clone_eq]
  · intro main_fn
    simp [construct_program, clone_eq]

/-- C2: the reduction step on an app checks whether the left child is a
func first and in that case immediately beta-contracts, with priority over
recursing into either child; otherwise it tries the left child (keeping the
right child unchanged), then the right child (keeping the left child
unchanged), and returns none when all fail; a var never reduces; a func
reduces exactly when its body reduces at depth + 1, wrapping the reduced
body in a func. -/
theorem reduce_one_step_spec :
    (∀ (i depth : Nat), Expr.reduce_one_step (.var i) depth = none) ∧
    (∀ (body r : Expr) (depth : Nat),
       Expr.reduce_one_step (.app (.func body) r) depth =
         some (body.substitute 0 depth r)) ∧
    (∀ (l r l2 : Expr) (depth : Nat), l.isFunc = false →
       l.reduce_one_step depth = some l2 →
       Expr.reduce_one_step (.app l r) depth = some (.app l2 r)) ∧
    (∀ (l r r2 : Expr) (depth : Nat), l.isFunc = false →
       l.reduce_one_step depth = none →
       r.reduce_one_step depth = some r2 →
       Expr.reduce_one_step (.app l r) depth = some (.app l r2)) ∧
    (∀ (l r : Expr) (depth : Nat), l.isFunc = false →
       l.reduce_one_step depth = none →
       r.reduce_one_step depth = none →
       Expr.reduce_one_step (.app l r) depth = none) ∧
    (∀ (b b2 : Expr) (depth : Nat),
       b.reduce_one_step (depth + 1) = some b2 →
       Expr.reduce_one_step (.func b) depth = some (.func b2)) ∧
    (∀ (b : Expr) (depth : Nat),
       b.reduce_one_step (depth + 1) = none →
       Expr.reduce_one_step (.func b) depth = none) := by
  refine ⟨?_, ?_, ?_, ?_, ?_, ?_, ?_⟩
  · intro i depth
    rfl
  · intro body r depth
    rfl
  · intro l r l2 depth hf hl
    rw [reduce_one_step_app_not_func l r depth hf, hl]
    simp [clone_eq]
  · intro l r r2 depth hf hl hr
    rw [reduce_one_step_app_not_func l r depth hf, hl, hr]
    simp [clone_eq]
  · intro l r depth hf hl hr
    rw [reduce_one_step_app_not_func l r depth hf, hl, hr]
  · intro b b2 depth hb
    simp [Expr.reduce_one_step, hb]
  · intro b depth hb
    simp [Expr.reduce_one_step, hb]

theorem reduce_one_step_spec_witness :
    (Expr.app (.func (.var 0)) (.var 1)).isFunc = false ∧
    (Expr.app (.func (.var 0)) (.var 1)).reduce_one_step 0 = some (.var 1) ∧
    Expr.reduce_one_step (.app (.app (.func (.var 0)) (.var 1)) (.var 9)) 0 =
      some (.app (.var 1) (.var 9)) :=
  ⟨by decide, by decide,
    reduce_one_step_spec.2.2.1 (.app (.func (.var 0)) (.var 1)) (.var 9)
      (.var 1) 0 (by decide) (by decide)⟩

/-- C10: the two excess flags of a normalize result are never both set:
the loop stops at the first limit violation, so at most one flag is true. -/
theorem excess_flags_mutually_exclusive (t : Expr) (sl zl : Nat) :
    ((t.normalize sl zl).step_excess &&
      (t.normalize sl zl).size_excess) = false := by
  rw [normalize_eq]
  exact normalize_go_flags sl zl sl (init_state t) rfl rfl

/-- C8: size_peak starts at the minimum value of size_t, namely 0, and is
updated only after a committed reduction: any run committing zero steps
reports size_peak 0, in particular a run with step limit 0 and a run on a
term whose reduction step returns none, never the term's own size. -/
theorem size_peak_sentinel :
    (∀ (t : Expr) (sl zl : Nat), (t.normalize sl zl).step_count = 0 →
       (t.normalize sl zl).size_peak = 0) ∧
    (∀ (t : Expr) (zl : Nat), (t.normalize 0 zl).size_peak = 0) ∧
    (∀ (t : Expr) (sl zl : Nat), t.reduce_one_step 0 = none →
       (t.normalize sl zl).size_peak = 0) := by
  refine ⟨?_, ?_, ?_⟩
  · intro t sl zl hstep
    rw [normalize_eq] at hstep ⊢
    rcases hred : t.reduce_one_step 0 with _ | reduced
    · rw [normalize_go_none sl zl sl (init_state t) hred]
      rfl
    · by_cases hsc : (init_state t).step_count = sl
      · rw [normalize_go_step_excess sl zl sl (init_state t) reduced hred hsc]
        rfl
      · by_cases hsz : zl < reduced.size
        · rw [normalize_go_size_excess sl zl sl (init_state t) reduced
            hred hsc hsz]
          rfl
        · obtain ⟨m, rfl⟩ : ∃ m, sl = m + 1 := by
            refine ⟨sl - 1, ?_⟩
            simp only [init_state] at hsc
            omega
          rw [normalize_go_commit (m + 1) zl m (init_state t) reduced hred
            hsc (Nat.not_lt.mp hsz)] at hstep
          have hle := normalize_go_step_count_le (m + 1) zl m
            { init_state t with
                step_count := (init_state t).step_count + 1,
                size_peak := max (init_state t).size_peak reduced.size,
                expr := reduced }
          simp only [init_state] at hle hstep
          omega
  · intro t zl
    rw [normalize_eq]
    rcases hred : t.reduce_one_step 0 with _ | reduced
    · rw [normalize_go_none 0 zl 0 (init_state t) hred]
      rfl
    · rw [normalize_go_step_excess 0 zl 0 (init_state t) reduced hred rfl]
      rfl
  · intro t sl zl hred
    rw [normalize_eq, normalize_go_none sl zl sl (init_state t) hred]
    rfl

theorem size_peak_sentinel_witness :
    (Expr.var 0).reduce_one_step 0 = none ∧
    ((Expr.var 0).normalize 5 5).size_peak = 0 :=
  ⟨by decide, size_peak_sentinel.2.2 (.var 0) 5 5 (by decide)⟩

/-- C3 counterexample: on the redex (λ.0) 0 with stepLimit 0 and sizeLimit
0, the size limit (0) is below the size (1) of the first candidate result,
yet normalize stops with the step-excess flag, not the size-excess flag:
the claim that a too-small size limit always yields sizeExcess regardless
of stepLimit is false at stepLimit 0. -/
theorem normalize_size_check_counterexample :
    (Expr.app (.func (.var 0)) (.var 0)).reduce_one_step 0 =
      some (.var 0) ∧
    (Expr.var 0).size = 1 ∧
    ((Expr.app (.func (.var 0)) (.var 0)).normalize 0 0).size_excess =
      false ∧
    ((Expr.app (.func (.var 0)) (.var 0)).normalize 0 0).step_excess =
      true ∧
    ((Expr.app (.func (.var 0)) (.var 0)).normalize 0 0).step_count = 0 :=
  by decide

/-- C3 (amended): on each loop iteration where a candidate reduction
exists, the step limit is checked first: if the step count already equals
the step limit the loop stops with stepExcess true, the candidate neither
counted nor applied; otherwise, if the candidate's size strictly exceeds
the size limit, the loop stops with sizeExcess true, the candidate not
applied; in both cases the state is otherwise unchanged.  In particular,
when the step limit is at least 1 and the size limit is below the size of
the first candidate's result, normalize returns sizeExcess true, zero
steps, and the input term unchanged. -/
theorem normalize_limit_check_order :
    (∀ (sl zl fuel : Nat) (st : NormalizeResult) (reduced : Expr),
       st.expr.reduce_one_step 0 = some reduced → st.step_count = sl →
       normalize_go sl zl fuel st = { st with step_excess := true }) ∧
    (∀ (sl zl fuel : Nat) (st : NormalizeResult) (reduced : Expr),
       st.expr.reduce_one_step 0 = some reduced → st.step_count ≠ sl →
       zl < reduced.size →
       normalize_go sl zl fuel st = { st with size_excess := true }) ∧
    (∀ (t reduced : Expr) (sl zl : Nat), 1 ≤ sl →
       t.reduce_one_step 0 = some reduced → zl < reduced.size →
       t.normalize sl zl =
         { step_excess := false, size_excess := true, step_count := 0,
           size_peak := 0, expr := t }) := by
  refine ⟨?_, ?_, ?_⟩
  · intro sl zl fuel st reduced hred hsc
    exact normalize_go_step_excess sl zl fuel st reduced hred hsc
  · intro sl zl fuel st reduced hred hsc hsz
    exact normalize_go_size_excess sl zl fuel st reduced hred hsc hsz
  · intro t reduced sl zl hsl hred hsz
    rw [normalize_eq]
    rw [normalize_go_size_excess sl zl sl (init_state t) reduced hred
      (by simp only [init_state]; omega) hsz]
    rfl

theorem normalize_limit_check_order_witness :
    (1 : Nat) ≤ 1 ∧
    (Expr.app (.func (.var 0)) (.var 0)).reduce_one_step 0 =
      some (.var 0) ∧
    (0 : Nat) < (Expr.var 0).size ∧
    (Expr.app (.func (.var 0)) (.var 0)).normalize 1 0 =
      { step_excess := false, size_excess := true, step_count := 0,
        size_peak := 0, expr := .app (.func (.var 0)) (.var 0) } :=
  ⟨by decide, by decide, by decide,
    normalize_limit_check_order.2.2 (.app (.func (.var 0)) (.var 0))
      (.var 0) 1 0 (by decide) (by decide) (by decide)⟩

/-- The omega combinator (λ.(0 0)) (λ.(0 0)): self-application, a fixed
point of one-step reduction. -/
def omega_term : Expr :=
  .app (.func (.app (.var 0) (.var 0))) (.func (.app (.var 0) (.var 0)))

lemma omega_term_reduce :
    omega_term.reduce_one_step 0 = some omega_term := by decide

lemma omega_term_size : omega_term.size = 9 := by decide

/-- A loop state holding the omega combinator with both flags cleared. -/
def omega_state (sc sp : Nat) : NormalizeResult :=
  { step_excess := false, size_excess := false, step_count := sc,
    size_peak := sp, expr := omega_term }

lemma omega_go (zl : Nat) (h : 9 ≤ zl) :
    ∀ (fuel sc sp : Nat),
      (normalize_go (sc + fuel) zl fuel (omega_state sc sp)).step_excess =
        true ∧
      (normalize_go (sc + fuel) zl fuel (omega_state sc sp)).step_count =
        sc + fuel ∧
      (normalize_go (sc + fuel) zl fuel (omega_state sc sp)).expr =
        omega_term := by
  intro fuel
  induction fuel with
  | zero =>
    intro sc sp
    rw [normalize_go_step_excess (sc + 0) zl 0 (omega_state sc sp)
      omega_term omega_term_reduce (by simp [omega_state])]
    exact ⟨rfl, by simp [omega_state], rfl⟩
  | succ f ih =>
    intro sc sp
    rw [normalize_go_commit (sc + (f + 1)) zl f (omega_state sc sp)
      omega_term omega_term_reduce (by simp [omega_state])
      (by rw [omega_term_size]; omega)]
    have e : sc + (f + 1) = sc + 1 + f := by omega
    rw [e]
    have hgo := ih (sc + 1) (max sp omega_term.size)
    simp only [omega_state] at hgo ⊢
    exact hgo

/-- C5: normalizing the omega combinator with step limit N and a size
limit that accommodates its size (9, covering the unbounded case) commits
exactly N steps, stops with the step-excess flag set, and returns a term
structurally equal to the original omega combinator. -/
theorem omega_normalize (n zl : Nat) (h : 9 ≤ zl) :
    (omega_term.normalize n zl).step_count = n ∧
    (omega_term.normalize n zl).step_excess = true ∧
    (omega_term.normalize n zl).expr = omega_term := by
  have hgo := omega_go zl h n 0 0
  rw [Nat.zero_add] at hgo
  rw [normalize_eq]
  simp only [omega_state] at hgo
  simp only [init_state]
  exact ⟨hgo.2.1, hgo.1, hgo.2.2⟩

theorem omega_normalize_witness :
    (9 : Nat) ≤ 9 ∧
    (omega_term.normalize 2 9).step_count = 2 ∧
    (omega_term.normalize 2 9).step_excess = true ∧
    (omega_term.normalize 2 9).expr = omega_term :=
  ⟨by decide, omega_normalize 2 9 (by decide)⟩

/-- The two-redex scenario term ((λ.0) 5) ((λ.1) 6). -/
def scenario_term : Expr :=
  .app (.app (.func (.var 0)) (.var 5)) (.app (.func (.var 1)) (.var 6))

/-- C6: the term ((λ.0) 5) ((λ.1) 6) normalizes in exactly 2 steps with
both excess flags false to (5 0): the free Var 1 of the second operand is
decremented to Var 0 when its enclosing redex is removed.  Any limits at
least 2 and 6 accommodate the run, covering the unbounded case. -/
theorem scenario_normalize (sl zl : Nat) (h1 : 2 ≤ sl) (h2 : 6 ≤ zl) :
    (scenario_term.normalize sl zl).step_count = 2 ∧
    (scenario_term.normalize sl zl).step_excess = false ∧
    (scenario_term.normalize sl zl).size_excess = false ∧
    (scenario_term.normalize sl zl).expr = .app (.var 5) (.var 0) := by
  obtain ⟨k, rfl⟩ : ∃ k, sl = k + 1 + 1 := ⟨sl - 2, by omega⟩
  have e1 : normalize_go (k + 1 + 1) zl (k + 1 + 1)
      (init_state scenario_term) =
      normalize_go (k + 1 + 1) zl (k + 1)
        { step_excess := false, size_excess := false, step_count := 1,
          size_peak := 6,
          expr := .app (.var 5) (.app (.func (.var 1)) (.var 6)) } := by
    rw [normalize_go_commit (k + 1 + 1) zl (k + 1)
      (init_state scenario_term)
      (.app (.var 5) (.app (.func (.var 1)) (.var 6))) (by decide)
      (by show (0 : Nat) ≠ k + 1 + 1; omega)
      (by show (6 : Nat) ≤ zl; omega)]
    norm_num [init_state, Expr.size]
  have e2 : normalize_go (k + 1 + 1) zl (k + 1)
      { step_excess := false, size_excess := false, step_count := 1,
        size_peak := 6,
        expr := .app (.var 5) (.app (.func (.var 1)) (.var 6)) } =
      normalize_go (k + 1 + 1) zl k
        { step_excess := false, size_excess := false, step_count := 2,
          size_peak := 6, expr := .app (.var 5) (.var 0) } := by
    rw [normalize_go_commit (k + 1 + 1) zl k
      { step_excess := false, size_excess := false, step_count := 1,
        size_peak := 6,
        expr := .app (.var 5) (.app (.func (.var 1)) (.var 6)) }
      (.app (.var 5) (.var 0)) (by decide)
      (by show (1 : Nat) ≠ k + 1 + 1; omega)
      (by show (3 : Nat) ≤ zl; omega)]
    norm_num [Expr.size]
  have e3 : normalize_go (k + 1 + 1) zl k
      { step_excess := false, size_excess := false, step_count := 2,
        size_peak := 6, expr := .app (.var 5) (.var 0) } =
      { step_excess := false, size_excess := false, step_count := 2,
        size_peak := 6, expr := .app (.var 5) (.var 0) } :=
    normalize_go_none (k + 1 + 1) zl k _ (by decide)
  rw [normalize_eq, e1, e2, e3]
  exact ⟨rfl, rfl, rfl, rfl⟩

theorem scenario_normalize_witness :
    (2 : Nat) ≤ 2 ∧ (6 : Nat) ≤ 6 ∧
    ((scenario_term.normalize 2 6).step_count = 2 ∧
     (scenario_term.normalize 2 6).step_excess = false ∧
     (scenario_term.normalize 2 6).size_excess = false ∧
     (scenario_term.normalize 2 6).expr = .app (.var 5) (.var 0)) :=
  ⟨by decide, by decide, scenario_normalize 2 6 (by decide) (by decide)⟩

end Lambda
